import Mathlib

/-!
Shallow embedding of the scheduling and dispatch core of the StatsD pull
manager (`StatsPullerManager`), translated from the C++ source.

Modelling conventions:
* `int64_t` values are Lean `Int`; C++ signed integer division (which
  truncates toward zero) is `Int.tdiv`.
* `std::map` keyed containers are association lists with unique keys
  (`std::map` guarantees key uniqueness; iteration order differs but no
  verified property depends on it).
* The weak pointer `wp<PullDataReceiver>` is modelled as a `Nat` identity
  plus a liveness oracle `alive : Nat → Bool` supplied to `OnAlarmFired`
  (`promote()` succeeds exactly when `alive` holds).
* A puller capability is a deterministic result: the events it writes to
  the output buffer and the boolean it returns.
* Calls to external collaborators (`StatsdStats`, receivers) are modelled
  as effect logs returned alongside the new state.
* `getWallClockNs()` and `getElapsedRealtimeNs()` are modelled as extra
  parameters `wallClockNs` / `actualNowNs` of `OnAlarmFired`.
-/

namespace StatsdSched

/-- `NS_PER_SEC`: nanoseconds per second. -/
def NS_PER_SEC : Int := 1000000000

/-- `const int64_t NO_ALARM_UPDATE = INT64_MAX;` -/
def NO_ALARM_UPDATE : Int := 9223372036854775807

/-- A log event produced by a pull; `payload` is the opaque content, the two
timestamp fields are the ones `OnAlarmFired` overwrites. -/
structure LogEvent where
  payload : Nat
  elapsedTimestampNs : Int
  logdWallClockTimestampNs : Int
deriving DecidableEq, Repr

/-- A puller capability: `Pull(&data)` writes `pullData` into the buffer and
returns `pullSuccess`. -/
structure StatsPuller where
  pullSuccess : Bool
  pullData : List LogEvent
deriving DecidableEq, Repr

/-- `PullAtomInfo`: metadata stored in `kAllPullAtomInfo` for one atom tag. -/
structure PullAtomInfo where
  additiveFields : List Int := []
  coolDownNs : Int := 0
  puller : StatsPuller
  pullTimeoutNs : Int := 0
deriving DecidableEq, Repr

/-- `ReceiverInfo`: one subscriber record. `receiver` is the weak-handle
identity. -/
structure ReceiverInfo where
  receiver : Nat
  intervalNs : Int := 0
  nextPullTimeNs : Int := 0
deriving DecidableEq, Repr

/-- The mutable state of `StatsPullerManager`. -/
structure Manager where
  kAllPullAtomInfo : List (Int × PullAtomInfo)
  mReceivers : List (Int × List ReceiverInfo)
  mNextPullTimeNs : Int
deriving DecidableEq, Repr

/-- `StatsPullerManager::StatsPullerManager() : mNextPullTimeNs(NO_ALARM_UPDATE)`;
the static `kAllPullAtomInfo` table is a parameter. -/
def initialManager (table : List (Int × PullAtomInfo)) : Manager :=
  { kAllPullAtomInfo := table, mReceivers := [], mNextPullTimeNs := NO_ALARM_UPDATE }

/-- `kAllPullAtomInfo.find({.atomTag = tagId})` on the association list. -/
def lookupAtomInfo (m : List (Int × PullAtomInfo)) (tagId : Int) : Option PullAtomInfo :=
  match m with
  | [] => none
  | p :: rest => if p.1 = tagId then some p.2 else lookupAtomInfo rest tagId

/-- `kAllPullAtomInfo[{.atomTag = tagId}] = info` (insert or replace). -/
def insertAtomInfo (m : List (Int × PullAtomInfo)) (tagId : Int) (info : PullAtomInfo) :
    List (Int × PullAtomInfo) :=
  match m with
  | [] => [(tagId, info)]
  | p :: rest => if p.1 = tagId then (p.1, info) :: rest else p :: insertAtomInfo rest tagId info

/-- `kAllPullAtomInfo.erase({.atomTag = tagId})`. -/
def eraseAtomInfo (m : List (Int × PullAtomInfo)) (tagId : Int) : List (Int × PullAtomInfo) :=
  match m with
  | [] => []
  | p :: rest => if p.1 = tagId then rest else p :: eraseAtomInfo rest tagId

/-- Observable effects of one `PullLocked` call: the returned boolean, the data
written to the output buffer, which pullers' `Pull` ran, and the
`StatsdStats::notePullFailed` calls. -/
structure PullOutcome where
  ret : Bool
  data : List LogEvent
  pulledTags : List Int
  pullFailedNotes : List Int
deriving DecidableEq, Repr

/-- `StatsPullerManager::PullLocked`: look the tag up in `kAllPullAtomInfo`;
if present run its puller once, noting a pull failure when it returns false;
otherwise return false without invoking anything. -/
def PullLocked (st : Manager) (tagId : Int) : PullOutcome :=
  match lookupAtomInfo st.kAllPullAtomInfo tagId with
  | some info =>
      { ret := info.puller.pullSuccess
        data := info.puller.pullData
        pulledTags := [tagId]
        pullFailedNotes := if info.puller.pullSuccess then [] else [tagId] }
  | none => { ret := false, data := [], pulledTags := [], pullFailedNotes := [] }

/-- `StatsPullerManager::Pull` just takes the lock and calls `PullLocked`. -/
def Pull (st : Manager) (tagId : Int) : PullOutcome := PullLocked st tagId

/-- `int64_t roundedIntervalNs = intervalNs / NS_PER_SEC / 60 * NS_PER_SEC * 60;
if (roundedIntervalNs < 60 * NS_PER_SEC) roundedIntervalNs = 60 * NS_PER_SEC;`
(C++ `int64_t` division truncates toward zero, hence `Int.tdiv`). -/
def roundedIntervalNs (intervalNs : Int) : Int :=
  let r := (intervalNs.tdiv NS_PER_SEC).tdiv 60 * NS_PER_SEC * 60
  if r < 60 * NS_PER_SEC then 60 * NS_PER_SEC else r

/-- `mReceivers[tagId]` followed by a mutation `f` of the receiver list:
`std::map::operator[]` materialises an empty entry when the key is absent. -/
def updateReceivers (rs : List (Int × List ReceiverInfo)) (tagId : Int)
    (f : List ReceiverInfo → List ReceiverInfo) : List (Int × List ReceiverInfo) :=
  match rs with
  | [] => [(tagId, f [])]
  | p :: rest =>
      if p.1 = tagId then (p.1, f p.2) :: rest else p :: updateReceivers rest tagId f

/-- Read the receiver list for a tag (empty when the key is absent). -/
def findReceivers (rs : List (Int × List ReceiverInfo)) (tagId : Int) : List ReceiverInfo :=
  match rs with
  | [] => []
  | p :: rest => if p.1 = tagId then p.2 else findReceivers rest tagId

/-- The duplicate scan at the top of `RegisterReceiver`:
`for (it : receivers) if (it->receiver == receiver) return;`. -/
def containsReceiver (rs : List ReceiverInfo) (receiver : Nat) : Bool :=
  rs.any fun r => r.receiver == receiver

/-- `StatsPullerManager::RegisterReceiver`. The duplicate branch leaves the
(possibly just materialised) entry as is and returns; otherwise a new record
with the rounded interval and the verbatim `nextPullTimeNs` is appended, and
`mNextPullTimeNs` is lowered when the new deadline is smaller. -/
def RegisterReceiver (st : Manager) (tagId : Int) (receiver : Nat)
    (nextPullTimeNs intervalNs : Int) : Manager :=
  if containsReceiver (findReceivers st.mReceivers tagId) receiver then
    { st with mReceivers := updateReceivers st.mReceivers tagId id }
  else
    let newInfo : ReceiverInfo :=
      { receiver := receiver
        intervalNs := roundedIntervalNs intervalNs
        nextPullTimeNs := nextPullTimeNs }
    let mReceivers' := updateReceivers st.mReceivers tagId fun l => l ++ [newInfo]
    if nextPullTimeNs < st.mNextPullTimeNs then
      { st with mReceivers := mReceivers', mNextPullTimeNs := nextPullTimeNs }
    else
      { st with mReceivers := mReceivers' }

/-- Erase the first record whose `receiver` matches (the `receivers.erase(it);
return;` loop body). -/
def eraseFirstReceiver (rs : List ReceiverInfo) (receiver : Nat) : List ReceiverInfo :=
  match rs with
  | [] => []
  | r :: rest =>
      if r.receiver = receiver then rest else r :: eraseFirstReceiver rest receiver

/-- Apply the unregister to the first entry matching the tag; `find` does not
materialise an entry for an absent key. -/
def unregisterIn (rs : List (Int × List ReceiverInfo)) (tagId : Int) (receiver : Nat) :
    List (Int × List ReceiverInfo) :=
  match rs with
  | [] => []
  | p :: rest =>
      if p.1 = tagId then (p.1, eraseFirstReceiver p.2 receiver) :: rest
      else p :: unregisterIn rest tagId receiver

/-- `StatsPullerManager::UnRegisterReceiver`: erases the matching record; it
never touches `mNextPullTimeNs`. -/
def UnRegisterReceiver (st : Manager) (tagId : Int) (receiver : Nat) : Manager :=
  { st with mReceivers := unregisterIn st.mReceivers tagId receiver }

/-- `receiverInfo.nextPullTimeNs <= elapsedTimeNs`: this receiver is due. -/
def isDue (elapsedTimeNs : Int) (r : ReceiverInfo) : Bool :=
  r.nextPullTimeNs ≤ elapsedTimeNs

/-- `if (x < minNextPullTimeNs) minNextPullTimeNs = x;` -/
def updMin (x acc : Int) : Int := if x < acc then x else acc

/-- The running-minimum contribution of one entry's not-due receivers during
the partition loop. -/
def entryMin (elapsedTimeNs : Int) (rs : List ReceiverInfo) (minAcc : Int) : Int :=
  match rs with
  | [] => minAcc
  | r :: rest =>
      if isDue elapsedTimeNs r then entryMin elapsedTimeNs rest minAcc
      else entryMin elapsedTimeNs rest (updMin r.nextPullTimeNs minAcc)

/-- The partition loop's `needToPull` output: for each entry, the due
receivers, kept only when nonempty. -/
def needToPull (elapsedTimeNs : Int) (rs : List (Int × List ReceiverInfo)) :
    List (Int × List ReceiverInfo) :=
  rs.filterMap fun p =>
    let due := p.2.filter (isDue elapsedTimeNs)
    if due.isEmpty then none else some (p.1, due)

/-- The partition loop's running minimum over every entry's not-due
receivers, starting from `NO_ALARM_UPDATE`. -/
def phase1Min (elapsedTimeNs : Int) (rs : List (Int × List ReceiverInfo)) (minAcc : Int) : Int :=
  match rs with
  | [] => minAcc
  | p :: rest => phase1Min elapsedTimeNs rest (entryMin elapsedTimeNs p.2 minAcc)

/-- `numBucketsAhead = (elapsedTimeNs - nextPullTimeNs) / intervalNs;
nextPullTimeNs += (numBucketsAhead + 1) * intervalNs;` -/
def computeNewNextPullTimeNs (elapsedTimeNs : Int) (r : ReceiverInfo) : Int :=
  let numBucketsAhead := (elapsedTimeNs - r.nextPullTimeNs).tdiv r.intervalNs
  r.nextPullTimeNs + (numBucketsAhead + 1) * r.intervalNs

/-- The dispatch loop's minimum updates: each due receiver whose handle
promotes contributes its freshly recomputed `nextPullTimeNs`. -/
def dispatchMin (elapsedTimeNs : Int) (alive : Nat → Bool)
    (due : List ReceiverInfo) (minAcc : Int) : Int :=
  match due with
  | [] => minAcc
  | r :: rest =>
      if alive r.receiver then
        dispatchMin elapsedTimeNs alive rest
          (updMin (computeNewNextPullTimeNs elapsedTimeNs r) minAcc)
      else dispatchMin elapsedTimeNs alive rest minAcc

/-- The final value of `minNextPullTimeNs` after the pull loop has visited
every `needToPull` entry. -/
def finalMin (elapsedTimeNs : Int) (alive : Nat → Bool)
    (ntp : List (Int × List ReceiverInfo)) (minAcc : Int) : Int :=
  match ntp with
  | [] => minAcc
  | p :: rest =>
      finalMin elapsedTimeNs alive rest (dispatchMin elapsedTimeNs alive p.2 minAcc)

/-- `event->setElapsedTimestampNs(elapsedTimeNs);
event->setLogdWallClockTimestampNs(wallClockNs);` -/
def stampEvent (elapsedTimeNs wallClockNs : Int) (e : LogEvent) : LogEvent :=
  { e with elapsedTimestampNs := elapsedTimeNs, logdWallClockTimestampNs := wallClockNs }

/-- One `onDataPulled(data, pullSuccess, elapsedTimeNs)` call. -/
structure Delivery where
  tagId : Int
  receiver : Nat
  data : List LogEvent
  pullSuccess : Bool
  elapsedTimeNs : Int
deriving DecidableEq, Repr

/-- Observable effects of one `OnAlarmFired` invocation. -/
structure AlarmEffects where
  pullLockedTags : List Int := []
  pulledTags : List Int := []
  pullDelayNotes : List (Int × Int) := []
  pullFailedNotes : List Int := []
  deliveries : List Delivery := []
deriving DecidableEq, Repr

def emptyEffects : AlarmEffects := {}

def appendEffects (a b : AlarmEffects) : AlarmEffects :=
  { pullLockedTags := a.pullLockedTags ++ b.pullLockedTags
    pulledTags := a.pulledTags ++ b.pulledTags
    pullDelayNotes := a.pullDelayNotes ++ b.pullDelayNotes
    pullFailedNotes := a.pullFailedNotes ++ b.pullFailedNotes
    deliveries := a.deliveries ++ b.deliveries }

/-- The pull-loop body for one `needToPull` entry: call `PullLocked` once,
note the pull delay only on success, stamp every produced event, and deliver
the stamped data to each due receiver whose handle promotes. -/
def entryEffects (st : Manager) (elapsedTimeNs wallClockNs actualNowNs : Int)
    (alive : Nat → Bool) (tagId : Int) (due : List ReceiverInfo) : AlarmEffects :=
  let outcome := PullLocked st tagId
  let stamped := outcome.data.map (stampEvent elapsedTimeNs wallClockNs)
  { pullLockedTags := [tagId]
    pulledTags := outcome.pulledTags
    pullDelayNotes := if outcome.ret then [(tagId, actualNowNs - elapsedTimeNs)] else []
    pullFailedNotes := outcome.pullFailedNotes
    deliveries := (due.filter fun r => alive r.receiver).map fun r =>
      { tagId := tagId, receiver := r.receiver, data := stamped,
        pullSuccess := outcome.ret, elapsedTimeNs := elapsedTimeNs } }

/-- In-place mutation of one receiver record over the whole firing: exactly
the due receivers whose handle promotes get the catch-up reschedule (they are
exactly the records the dispatch loop updates through its pointers). -/
def stepReceiver (elapsedTimeNs : Int) (alive : Nat → Bool) (r : ReceiverInfo) : ReceiverInfo :=
  if isDue elapsedTimeNs r then
    if alive r.receiver then
      { r with nextPullTimeNs := computeNewNextPullTimeNs elapsedTimeNs r }
    else r
  else r

/-- `StatsPullerManager::OnAlarmFired`, returning the new state and the
effect log. -/
def OnAlarmFired (st : Manager) (elapsedTimeNs wallClockNs actualNowNs : Int)
    (alive : Nat → Bool) : Manager × AlarmEffects :=
  let ntp := needToPull elapsedTimeNs st.mReceivers
  let m1 := phase1Min elapsedTimeNs st.mReceivers NO_ALARM_UPDATE
  let effs := ntp.foldr
    (fun p acc =>
      appendEffects (entryEffects st elapsedTimeNs wallClockNs actualNowNs alive p.1 p.2) acc)
    emptyEffects
  ({ st with
      mReceivers := st.mReceivers.map fun p => (p.1, p.2.map (stepReceiver elapsedTimeNs alive))
      mNextPullTimeNs := finalMin elapsedTimeNs alive ntp m1 },
   effs)

/-- `StatsdStats::notePullerCallbackRegistrationChanged` calls. -/
structure CallbackEffects where
  registrationChangedNotes : List (Int × Bool) := []
deriving DecidableEq, Repr

/-- `StatsPullerManager::RegisterPullerCallback` (vendor-gated register path):
rejected with no effect unless `isVendorPulledAtom atomTag`. The callback is
modelled by the puller it wraps. -/
def RegisterPullerCallback (isVendorPulledAtom : Int → Bool) (st : Manager)
    (atomTag : Int) (callbackPuller : StatsPuller) : Manager × CallbackEffects :=
  if !isVendorPulledAtom atomTag then (st, {})
  else
    ({ st with kAllPullAtomInfo :=
        insertAtomInfo st.kAllPullAtomInfo atomTag { puller := callbackPuller } },
     { registrationChangedNotes := [(atomTag, true)] })

/-- `StatsPullerManager::UnregisterPullerCallback`: no-op unless the atom is
vendor pulled. -/
def UnregisterPullerCallback (isVendorPulledAtom : Int → Bool) (st : Manager)
    (atomTag : Int) : Manager × CallbackEffects :=
  if !isVendorPulledAtom atomTag then (st, {})
  else
    ({ st with kAllPullAtomInfo := eraseAtomInfo st.kAllPullAtomInfo atomTag },
     { registrationChangedNotes := [(atomTag, false)] })

/-- `StatsPullerManager::UnregisterPullAtomCallback`: erases unconditionally,
with no vendor-range check. -/
def UnregisterPullAtomCallback (st : Manager) (uid : Int) (atomTag : Int) :
    Manager × CallbackEffects :=
  ({ st with kAllPullAtomInfo := eraseAtomInfo st.kAllPullAtomInfo atomTag },
   { registrationChangedNotes := [(atomTag, false)] })

/-- Modelled from the spec: the vendor-extensible key predicate
`isVendorPulledAtom` lives outside this repository's sources; the spec
describes it only as membership in a designated externally-extensible key
range, so it is modelled as membership in `[vendorRangeStart, ∞)`. -/
def isVendorPulledAtomSpec (vendorRangeStart : Int) (atomTag : Int) : Bool :=
  vendorRangeStart ≤ atomTag

/-- One public scheduling operation on the subscriber registry. -/
inductive Op where
  | register (tagId : Int) (receiver : Nat) (nextPullTimeNs intervalNs : Int)
  | unregister (tagId : Int) (receiver : Nat)
  | alarmFired (elapsedTimeNs wallClockNs actualNowNs : Int) (alive : Nat → Bool)

def applyOp (st : Manager) (op : Op) : Manager :=
  match op with
  | .register t r n i => RegisterReceiver st t r n i
  | .unregister t r => UnRegisterReceiver st t r
  | .alarmFired e w a alive => (OnAlarmFired st e w a alive).1

def run (st : Manager) (ops : List Op) : Manager := ops.foldl applyOp st

/-- All `nextPullTimeNs` values stored in a receiver table. -/
def recvValues : List (Int × List ReceiverInfo) → List Int
  | [] => []
  | p :: rest => p.2.map ReceiverInfo.nextPullTimeNs ++ recvValues rest

/-- The minimum of `NO_ALARM_UPDATE` and all stored `nextPullTimeNs` values:
what the alarm accumulation computes when nothing is skipped. -/
def registryMin (st : Manager) : Int :=
  (recvValues st.mReceivers).foldl min NO_ALARM_UPDATE

end StatsdSched

/-! ## Generic lemmas about the running-minimum fold -/

namespace StatsdSched

theorem updMin_eq_min (x acc : Int) : updMin x acc = min acc x := by
  simp only [updMin, min_def]
  split <;> split <;> omega

theorem foldl_min_pull (l : List Int) : ∀ a x : Int,
    l.foldl min (min a x) = min x (l.foldl min a) := by
  induction l with
  | nil => intro a x; simp [min_comm]
  | cons y l ih =>
      intro a x
      simp only [List.foldl_cons]
      rw [show min (min a x) y = min (min a y) x by
            rw [min_assoc, min_assoc, min_comm x y],
          ih (min a y) x]

theorem foldl_min_perm {l₁ l₂ : List Int} (h : l₁.Perm l₂) :
    ∀ a : Int, l₁.foldl min a = l₂.foldl min a := by
  induction h with
  | nil => intro a; rfl
  | cons x _ ih => intro a; simp only [List.foldl_cons]; exact ih (min a x)
  | swap x y l =>
      intro a
      simp only [List.foldl_cons]
      rw [min_assoc, min_comm y x, ← min_assoc]
  | trans _ _ ih₁ ih₂ => intro a; rw [ih₁ a, ih₂ a]

theorem foldl_min_le_init (l : List Int) : ∀ a : Int, l.foldl min a ≤ a := by
  induction l with
  | nil => intro a; simp
  | cons x l ih =>
      intro a
      simp only [List.foldl_cons]
      exact le_trans (ih (min a x)) (min_le_left a x)

theorem foldl_min_le_mem (l : List Int) : ∀ a : Int, ∀ v ∈ l, l.foldl min a ≤ v := by
  induction l with
  | nil => intro a v hv; cases hv
  | cons x l ih =>
      intro a v hv
      simp only [List.foldl_cons]
      rcases List.mem_cons.1 hv with rfl | hv
      · exact le_trans (foldl_min_le_init l (min a v)) (min_le_right a v)
      · exact ih (min a x) v hv

theorem foldl_min_mem_or (l : List Int) : ∀ a : Int,
    l.foldl min a = a ∨ l.foldl min a ∈ l := by
  induction l with
  | nil => intro a; exact Or.inl rfl
  | cons x l ih =>
      intro a
      simp only [List.foldl_cons]
      rcases ih (min a x) with h | h
      · rw [h]
        rcases min_cases a x with ⟨h', _⟩ | ⟨h', _⟩
        · exact Or.inl h'
        · exact Or.inr (by rw [h']; exact List.mem_cons_self x l)
      · exact Or.inr (List.mem_cons_of_mem x h)

theorem foldl_min_append (l₁ l₂ : List Int) (a : Int) :
    (l₁ ++ l₂).foldl min a = l₂.foldl min (l₁.foldl min a) :=
  List.foldl_append min a l₁ l₂

/-- `a ++ (b ++ c)` is a permutation of `b ++ (a ++ c)`. -/
theorem perm_append_swap {α : Type*} (a b c : List α) :
    (a ++ (b ++ c)).Perm (b ++ (a ++ c)) := by
  rw [← List.append_assoc, ← List.append_assoc]
  exact List.perm_append_comm.append_right c

end StatsdSched

/-! ## Receiver-table value lemmas -/

namespace StatsdSched


theorem recvValues_updateReceivers_id (rs : List (Int × List ReceiverInfo)) (t : Int) :
    recvValues (updateReceivers rs t id) = recvValues rs := by
  induction rs with
  | nil => simp [updateReceivers, recvValues]
  | cons p rest ih =>
      by_cases h : p.1 = t
      · simp [updateReceivers, h, recvValues]
      · simp only [updateReceivers, if_neg h, recvValues, ih]

theorem recvValues_updateReceivers_append (rs : List (Int × List ReceiverInfo)) (t : Int)
    (a : ReceiverInfo) :
    (recvValues (updateReceivers rs t fun l => l ++ [a])).Perm
      (recvValues rs ++ [a.nextPullTimeNs]) := by
  induction rs with
  | nil => simp [updateReceivers, recvValues]
  | cons p rest ih =>
      by_cases h : p.1 = t
      · simp only [updateReceivers, if_pos h, recvValues, List.map_append, List.map_cons,
          List.map_nil, List.append_assoc]
        exact List.Perm.append_left _ List.perm_append_comm
      · simp only [updateReceivers, if_neg h, recvValues, List.append_assoc]
        exact List.Perm.append_left _ ih

theorem mNext_register_dup (st : Manager) (t : Int) (r : Nat) (n i : Int)
    (h : containsReceiver (findReceivers st.mReceivers t) r = true) :
    (RegisterReceiver st t r n i).mNextPullTimeNs = st.mNextPullTimeNs ∧
    recvValues (RegisterReceiver st t r n i).mReceivers = recvValues st.mReceivers := by
  simp only [RegisterReceiver, h, if_true]
  exact ⟨trivial, recvValues_updateReceivers_id _ _⟩

theorem mNext_register_new (st : Manager) (t : Int) (r : Nat) (n i : Int)
    (h : containsReceiver (findReceivers st.mReceivers t) r = false) :
    (RegisterReceiver st t r n i).mNextPullTimeNs = min st.mNextPullTimeNs n ∧
    (recvValues (RegisterReceiver st t r n i).mReceivers).Perm
      (recvValues st.mReceivers ++ [n]) := by
  have hperm := recvValues_updateReceivers_append st.mReceivers t
    { receiver := r, intervalNs := roundedIntervalNs i, nextPullTimeNs := n }
  simp only [RegisterReceiver, h, Bool.false_eq_true, if_false]
  by_cases hlt : n < st.mNextPullTimeNs
  · rw [if_pos hlt]
    exact ⟨by simp [min_def]; omega, hperm⟩
  · rw [if_neg hlt]
    exact ⟨by simp [min_def]; omega, hperm⟩

/-- Register preserves the `registryMin` invariant. -/
theorem registryMin_register (st : Manager) (t : Int) (r : Nat) (n i : Int)
    (hinv : st.mNextPullTimeNs = registryMin st) :
    (RegisterReceiver st t r n i).mNextPullTimeNs = registryMin (RegisterReceiver st t r n i) := by
  by_cases h : containsReceiver (findReceivers st.mReceivers t) r
  · obtain ⟨h1, h2⟩ := mNext_register_dup st t r n i h
    rw [h1, hinv]
    unfold registryMin
    rw [h2]
  · obtain ⟨h1, h2⟩ := mNext_register_new st t r n i (by simpa using h)
    rw [h1, hinv]
    unfold registryMin
    rw [foldl_min_perm h2 NO_ALARM_UPDATE, foldl_min_append]
    simp [registryMin, min_def]

end StatsdSched

/-! ## Alarm-dispatch characterisation -/

namespace StatsdSched

/-- `nextPullTimeNs` values of the not-due receivers of one entry. -/
def ndTimes (e : Int) (rs : List ReceiverInfo) : List Int :=
  (rs.filter fun r => !isDue e r).map ReceiverInfo.nextPullTimeNs

/-- Recomputed `nextPullTimeNs` values of the due receivers of one entry. -/
def dueNewTimes (e : Int) (rs : List ReceiverInfo) : List Int :=
  (rs.filter (isDue e)).map (computeNewNextPullTimeNs e)

/-- All not-due values across the table. -/
def allND (e : Int) : List (Int × List ReceiverInfo) → List Int
  | [] => []
  | p :: rest => ndTimes e p.2 ++ allND e rest

/-- All recomputed due values across the table. -/
def allDueNew (e : Int) : List (Int × List ReceiverInfo) → List Int
  | [] => []
  | p :: rest => dueNewTimes e p.2 ++ allDueNew e rest

theorem entryMin_eq (e : Int) (rs : List ReceiverInfo) : ∀ acc : Int,
    entryMin e rs acc = (ndTimes e rs).foldl min acc := by
  induction rs with
  | nil => intro acc; rfl
  | cons r rest ih =>
      intro acc
      by_cases h : isDue e r
      · simp [entryMin, h, ndTimes, List.filter_cons, ih]
      · simp [entryMin, h, ndTimes, List.filter_cons, ih, updMin_eq_min]

theorem phase1Min_eq (e : Int) (rs : List (Int × List ReceiverInfo)) : ∀ acc : Int,
    phase1Min e rs acc = (allND e rs).foldl min acc := by
  induction rs with
  | nil => intro acc; rfl
  | cons p rest ih =>
      intro acc
      simp only [phase1Min, allND, foldl_min_append, ih, entryMin_eq]

theorem dispatchMin_eq_all_alive (e : Int) (alive : Nat → Bool)
    (halive : ∀ x, alive x = true) (due : List ReceiverInfo) : ∀ acc : Int,
    dispatchMin e alive due acc = (due.map (computeNewNextPullTimeNs e)).foldl min acc := by
  induction due with
  | nil => intro acc; rfl
  | cons r rest ih =>
      intro acc
      simp only [dispatchMin, halive r.receiver, if_true, List.map_cons, List.foldl_cons,
        ih, updMin_eq_min]

/-- Concatenated recomputed due values over the `needToPull` entries agree
with `allDueNew` over the whole table. -/
theorem ntp_dueNew (e : Int) (rs : List (Int × List ReceiverInfo)) :
    ((needToPull e rs).foldr (fun p acc => p.2.map (computeNewNextPullTimeNs e) ++ acc) [])
      = allDueNew e rs := by
  induction rs with
  | nil => rfl
  | cons p rest ih =>
      simp only [needToPull, List.filterMap_cons]
      by_cases h : (p.2.filter (isDue e)).isEmpty
      · simp only [h, if_true, allDueNew, dueNewTimes]
        rw [List.isEmpty_iff] at h
        simp only [h, List.map_nil, List.nil_append]
        exact ih
      · simp only [h, Bool.false_eq_true, if_false, List.foldr_cons, allDueNew, dueNewTimes]
        rw [← ih]
        rfl

theorem finalMin_eq_all_alive (e : Int) (alive : Nat → Bool)
    (halive : ∀ x, alive x = true) (ntp : List (Int × List ReceiverInfo)) : ∀ acc : Int,
    finalMin e alive ntp acc =
      (ntp.foldr (fun p acc => p.2.map (computeNewNextPullTimeNs e) ++ acc) []).foldl min acc := by
  induction ntp with
  | nil => intro acc; rfl
  | cons p rest ih =>
      intro acc
      simp only [finalMin, List.foldr_cons, foldl_min_append, ih,
        dispatchMin_eq_all_alive e alive halive]

theorem stepReceiver_receiver (e : Int) (alive : Nat → Bool) (r : ReceiverInfo) :
    (stepReceiver e alive r).receiver = r.receiver := by
  unfold stepReceiver
  split <;> try rfl
  split <;> rfl

/-- With every handle resolvable, the post-dispatch values of one entry are a
permutation of its not-due values plus its recomputed due values. -/
theorem step_entry_perm (e : Int) (alive : Nat → Bool) (halive : ∀ x, alive x = true)
    (rs : List ReceiverInfo) :
    ((rs.map (stepReceiver e alive)).map ReceiverInfo.nextPullTimeNs).Perm
      (ndTimes e rs ++ dueNewTimes e rs) := by
  rw [List.map_map]
  have hsplit := List.filter_append_perm (isDue e) rs
  have hdue : (rs.filter (isDue e)).map (ReceiverInfo.nextPullTimeNs ∘ stepReceiver e alive)
      = dueNewTimes e rs := by
    apply List.map_congr_left
    intro r hr
    have hd := List.of_mem_filter hr
    simp [Function.comp, stepReceiver, hd, halive]
  have hnd : ((rs.filter fun r => !isDue e r).map
      (ReceiverInfo.nextPullTimeNs ∘ stepReceiver e alive)) = ndTimes e rs := by
    apply List.map_congr_left
    intro r hr
    have hd : isDue e r = false := by simpa using List.of_mem_filter hr
    simp [Function.comp, stepReceiver, hd, ndTimes]
  refine ((hsplit.map (ReceiverInfo.nextPullTimeNs ∘ stepReceiver e alive)).symm.trans ?_)
  rw [List.map_append, hdue, hnd]
  exact List.perm_append_comm

/-- Post-state values across the whole table. -/
theorem recvValues_step_perm (e : Int) (alive : Nat → Bool) (halive : ∀ x, alive x = true)
    (rs : List (Int × List ReceiverInfo)) :
    (recvValues (rs.map fun p => (p.1, p.2.map (stepReceiver e alive)))).Perm
      (allND e rs ++ allDueNew e rs) := by
  induction rs with
  | nil => rfl
  | cons p rest ih =>
      simp only [List.map_cons, recvValues, allND, allDueNew, List.append_assoc]
      refine ((step_entry_perm e alive halive p.2).append ih).trans ?_
      rw [List.append_assoc]
      exact List.Perm.append_left _ (perm_append_swap _ _ _)

/-- `OnAlarmFired` recomputes `mNextPullTimeNs` to the exact registry minimum
whenever every handle resolves. -/
theorem registryMin_alarm (st : Manager) (e w a : Int) (alive : Nat → Bool)
    (halive : ∀ x, alive x = true) :
    (OnAlarmFired st e w a alive).1.mNextPullTimeNs
      = registryMin (OnAlarmFired st e w a alive).1 := by
  unfold OnAlarmFired registryMin
  dsimp only
  rw [finalMin_eq_all_alive e alive halive, phase1Min_eq, ntp_dueNew,
    ← foldl_min_append,
    foldl_min_perm (recvValues_step_perm e alive halive st.mReceivers) NO_ALARM_UPDATE]

end StatsdSched

/-! ## C1: global deadline -/

namespace StatsdSched

/-- The operations under which the registry-minimum invariant is provable:
no unregistration, and every alarm firing finds all handles resolvable. -/
def GoodOp : Op → Prop
  | .register _ _ _ _ => True
  | .unregister _ _ => False
  | .alarmFired _ _ _ alive => ∀ x, alive x = true

theorem registryMin_run (st : Manager) (ops : List Op)
    (hst : st.mNextPullTimeNs = registryMin st) (hops : ∀ op ∈ ops, GoodOp op) :
    (run st ops).mNextPullTimeNs = registryMin (run st ops) := by
  induction ops generalizing st with
  | nil => exact hst
  | cons op rest ih =>
      have hop := hops op (List.mem_cons_self _ _)
      have hrest : ∀ o ∈ rest, GoodOp o := fun o ho => hops o (List.mem_cons_of_mem _ ho)
      cases op with
      | register t r n i => exact ih _ (registryMin_register st t r n i hst) hrest
      | unregister t r => cases hop
      | alarmFired e w a alive => exact ih _ (registryMin_alarm st e w a alive hop) hrest

/-- C1, amended: after any sequence of `RegisterReceiver` and `OnAlarmFired`
operations in which every handle resolves at dispatch time, `mNextPullTimeNs`
is the minimum of `NO_ALARM_UPDATE` and all stored `nextPullTimeNs` values: it
is the sentinel when no record exists, it is a lower bound of every stored
next-due time, and it is the sentinel or an actually stored next-due time.
(`UnRegisterReceiver` is excluded: it breaks the invariant, see the
counterexample.) -/
theorem c1_global_deadline_amended (table : List (Int × PullAtomInfo)) (ops : List Op)
    (hops : ∀ op ∈ ops, GoodOp op) :
    (run (initialManager table) ops).mNextPullTimeNs
        = registryMin (run (initialManager table) ops) ∧
    (recvValues (run (initialManager table) ops).mReceivers = [] →
       (run (initialManager table) ops).mNextPullTimeNs = NO_ALARM_UPDATE) ∧
    (∀ v ∈ recvValues (run (initialManager table) ops).mReceivers,
       (run (initialManager table) ops).mNextPullTimeNs ≤ v) ∧
    ((run (initialManager table) ops).mNextPullTimeNs = NO_ALARM_UPDATE ∨
       (run (initialManager table) ops).mNextPullTimeNs
         ∈ recvValues (run (initialManager table) ops).mReceivers) := by
  have h := registryMin_run (initialManager table) ops rfl hops
  refine ⟨h, ?_, ?_, ?_⟩
  · intro hempty
    rw [h]
    unfold registryMin
    rw [hempty]
    rfl
  · intro v hv
    rw [h]
    exact foldl_min_le_mem _ _ v hv
  · rw [h]
    exact foldl_min_mem_or _ _

/-- C1 counterexample: registering a subscriber at next-due time 100 and then
unregistering it leaves an empty registry while `mNextPullTimeNs` is stuck at
100, not at the sentinel `NO_ALARM_UPDATE` — `UnRegisterReceiver` never
recomputes the global deadline. -/
theorem c1_global_deadline_cex :
    recvValues (UnRegisterReceiver
        (RegisterReceiver (initialManager []) 5 0 100 60000000000) 5 0).mReceivers = [] ∧
    (UnRegisterReceiver
        (RegisterReceiver (initialManager []) 5 0 100 60000000000) 5 0).mNextPullTimeNs = 100 ∧
    (UnRegisterReceiver
        (RegisterReceiver (initialManager []) 5 0 100 60000000000) 5 0).mNextPullTimeNs
      ≠ NO_ALARM_UPDATE := by
  refine ⟨by decide, by decide, by decide⟩

/-- Witness for the amended C1 at a concrete operation sequence. -/
theorem c1_global_deadline_amended_witness :
    (run (initialManager []) [Op.register 1 0 100 60000000000]).mNextPullTimeNs
        = registryMin (run (initialManager []) [Op.register 1 0 100 60000000000]) ∧
    (recvValues (run (initialManager []) [Op.register 1 0 100 60000000000]).mReceivers = [] →
       (run (initialManager []) [Op.register 1 0 100 60000000000]).mNextPullTimeNs
         = NO_ALARM_UPDATE) ∧
    (∀ v ∈ recvValues (run (initialManager []) [Op.register 1 0 100 60000000000]).mReceivers,
       (run (initialManager []) [Op.register 1 0 100 60000000000]).mNextPullTimeNs ≤ v) ∧
    ((run (initialManager []) [Op.register 1 0 100 60000000000]).mNextPullTimeNs
        = NO_ALARM_UPDATE ∨
       (run (initialManager []) [Op.register 1 0 100 60000000000]).mNextPullTimeNs
         ∈ recvValues (run (initialManager []) [Op.register 1 0 100 60000000000]).mReceivers) :=
  c1_global_deadline_amended [] [Op.register 1 0 100 60000000000]
    (by intro op h; rcases List.mem_singleton.1 h with rfl; exact trivial)

end StatsdSched

/-! ## C2, C4, C6 -/

namespace StatsdSched

/-- C2: for a due receiver with positive interval, the reschedule computes
`missed = floor((firedAt - nextDue) / interval)` and adds `(missed + 1)`
intervals in one step, landing strictly past `firedAt`; with a 60 s interval
and a firing 185 s late the new due time is exactly `T + 240 s`. -/
theorem c2_catchup_reschedule :
    (∀ (r : ReceiverInfo) (e : Int), r.nextPullTimeNs ≤ e → 0 < r.intervalNs →
       computeNewNextPullTimeNs e r
           = r.nextPullTimeNs + ((e - r.nextPullTimeNs).tdiv r.intervalNs + 1) * r.intervalNs ∧
       e < computeNewNextPullTimeNs e r) ∧
    (∀ T : Int, computeNewNextPullTimeNs (T + 185 * NS_PER_SEC)
        { receiver := 0, intervalNs := 60 * NS_PER_SEC, nextPullTimeNs := T }
      = T + 240 * NS_PER_SEC) := by
  constructor
  · intro r e hdue hpos
    refine ⟨rfl, ?_⟩
    show e < r.nextPullTimeNs + ((e - r.nextPullTimeNs).tdiv r.intervalNs + 1) * r.intervalNs
    have hd0 : 0 ≤ e - r.nextPullTimeNs := by omega
    rw [Int.tdiv_eq_ediv hd0 (le_of_lt hpos)]
    have key : e - r.nextPullTimeNs
        < ((e - r.nextPullTimeNs) / r.intervalNs + 1) * r.intervalNs := by
      have h1 := Int.ediv_add_emod (e - r.nextPullTimeNs) r.intervalNs
      have h2 := Int.emod_lt_of_pos (e - r.nextPullTimeNs) hpos
      nlinarith
    linarith [key]
  · intro T
    show T + ((T + 185 * NS_PER_SEC - T).tdiv (60 * NS_PER_SEC) + 1) * (60 * NS_PER_SEC)
        = T + 240 * NS_PER_SEC
    have h1 : T + 185 * NS_PER_SEC - T = 185 * NS_PER_SEC := by ring
    have h2 : (185 * NS_PER_SEC).tdiv (60 * NS_PER_SEC) = 3 := by decide
    rw [h1, h2]
    norm_num [NS_PER_SEC]

/-- Witness for C2 at `T = 0`, interval 60 s, fired 185 s late. -/
theorem c2_catchup_reschedule_witness :
    computeNewNextPullTimeNs (185 * NS_PER_SEC)
        ({ receiver := 0, intervalNs := 60 * NS_PER_SEC, nextPullTimeNs := 0 } : ReceiverInfo)
        = 0 + ((185 * NS_PER_SEC - 0).tdiv (60 * NS_PER_SEC) + 1) * (60 * NS_PER_SEC) ∧
    185 * NS_PER_SEC < computeNewNextPullTimeNs (185 * NS_PER_SEC)
        ({ receiver := 0, intervalNs := 60 * NS_PER_SEC, nextPullTimeNs := 0 } : ReceiverInfo) :=
  c2_catchup_reschedule.1
    { receiver := 0, intervalNs := 60 * NS_PER_SEC, nextPullTimeNs := 0 }
    (185 * NS_PER_SEC) (by decide) (by decide)

/-- The new record appended by a fresh registration is stored with key `t`. -/
theorem mem_updateReceivers_append (rs : List (Int × List ReceiverInfo)) (t : Int)
    (a : ReceiverInfo) :
    ∃ p ∈ updateReceivers rs t fun l => l ++ [a], p.1 = t ∧ a ∈ p.2 := by
  induction rs with
  | nil => exact ⟨(t, [a]), by simp [updateReceivers], rfl, by simp⟩
  | cons q rest ih =>
      by_cases h : q.1 = t
      · exact ⟨(q.1, q.2 ++ [a]), by simp [updateReceivers, h], h, by simp⟩
      · obtain ⟨p, hp, hp2⟩ := ih
        exact ⟨p, by simp [updateReceivers, h, hp], hp2⟩

/-- C4: the stored interval is `max(60 s, interval truncated to whole
minutes)`; 10 s becomes exactly 60 s; a fresh registration stores a record
carrying exactly `roundedIntervalNs intervalNs`. -/
theorem c4_interval_floor :
    (∀ i : Int, 0 ≤ i →
       roundedIntervalNs i
         = max (60 * NS_PER_SEC) (i / (60 * NS_PER_SEC) * (60 * NS_PER_SEC))) ∧
    roundedIntervalNs (10 * NS_PER_SEC) = 60 * NS_PER_SEC ∧
    (∀ (st : Manager) (t : Int) (r : Nat) (n i : Int),
       containsReceiver (findReceivers st.mReceivers t) r = false →
       ∃ p ∈ (RegisterReceiver st t r n i).mReceivers, p.1 = t ∧
         ({ receiver := r, intervalNs := roundedIntervalNs i, nextPullTimeNs := n }
            : ReceiverInfo) ∈ p.2) := by
  refine ⟨?_, by decide, ?_⟩
  · intro i hi
    simp only [roundedIntervalNs]
    rw [Int.tdiv_eq_ediv hi (by norm_num [NS_PER_SEC]),
      Int.tdiv_eq_ediv (Int.ediv_nonneg hi (by norm_num [NS_PER_SEC])) (by norm_num)]
    simp only [NS_PER_SEC]
    rw [max_def]
    split_ifs <;> omega
  · intro st t r n i h
    simp only [RegisterReceiver, h, Bool.false_eq_true, if_false]
    by_cases hlt : n < st.mNextPullTimeNs
    · rw [if_pos hlt]; exact mem_updateReceivers_append _ _ _
    · rw [if_neg hlt]; exact mem_updateReceivers_append _ _ _

/-- Witness for C4: the floor formula at 10 s and a fresh registration on the
empty registry. -/
theorem c4_interval_floor_witness :
    roundedIntervalNs (10 * NS_PER_SEC)
        = max (60 * NS_PER_SEC) (10 * NS_PER_SEC / (60 * NS_PER_SEC) * (60 * NS_PER_SEC)) ∧
    ∃ p ∈ (RegisterReceiver (initialManager []) 1 0 100 (10 * NS_PER_SEC)).mReceivers,
      p.1 = 1 ∧
      ({ receiver := 0, intervalNs := roundedIntervalNs (10 * NS_PER_SEC),
         nextPullTimeNs := 100 } : ReceiverInfo) ∈ p.2 :=
  ⟨c4_interval_floor.1 (10 * NS_PER_SEC) (by decide),
   c4_interval_floor.2.2 (initialManager []) 1 0 100 (10 * NS_PER_SEC) (by decide)⟩

/-- C6: `PullLocked` fails immediately with no effects on an unknown tag;
on a known tag it runs the capability exactly once, propagates its result
and data, and notes a pull failure exactly when the capability ran and
reported failure. -/
theorem c6_pull_locked (st : Manager) (t : Int) :
    (lookupAtomInfo st.kAllPullAtomInfo t = none →
       PullLocked st t
         = { ret := false, data := [], pulledTags := [], pullFailedNotes := [] }) ∧
    (∀ info, lookupAtomInfo st.kAllPullAtomInfo t = some info →
       PullLocked st t
         = { ret := info.puller.pullSuccess
             data := info.puller.pullData
             pulledTags := [t]
             pullFailedNotes := if info.puller.pullSuccess then [] else [t] }) ∧
    ((PullLocked st t).pullFailedNotes ≠ [] ↔
       (PullLocked st t).pulledTags ≠ [] ∧ (PullLocked st t).ret = false) := by
  refine ⟨?_, ?_, ?_⟩
  · intro h; unfold PullLocked; rw [h]
  · intro info h; unfold PullLocked; rw [h]
  · unfold PullLocked
    cases hl : lookupAtomInfo st.kAllPullAtomInfo t with
    | none => simp
    | some info => cases hs : info.puller.pullSuccess <;> simp [hs]

/-- A table with a single failing puller at tag 3, for concrete checks. -/
def mgrFailingAt3 : Manager :=
  { kAllPullAtomInfo := [(3, { puller := { pullSuccess := false, pullData := [] } })]
    mReceivers := []
    mNextPullTimeNs := NO_ALARM_UPDATE }

/-- Witness for C6: unknown tag on the empty table, known failing tag 3. -/
theorem c6_pull_locked_witness :
    PullLocked (initialManager []) 3
        = { ret := false, data := [], pulledTags := [], pullFailedNotes := [] } ∧
    PullLocked mgrFailingAt3 3
        = { ret := false, data := [], pulledTags := [3], pullFailedNotes := [3] } :=
  ⟨(c6_pull_locked (initialManager []) 3).1 (by decide),
   (c6_pull_locked mgrFailingAt3 3).2.1
     { puller := { pullSuccess := false, pullData := [] } } (by decide)⟩

end StatsdSched

/-! ## Well-formedness of the receiver table and C5 -/

namespace StatsdSched

/-- The shape `std::map<int, std::vector<ReceiverInfo>>` guarantees, plus the
at-most-one-record-per-handle invariant: tag keys are unique, and within one
tag no two records share a receiver identity. -/
def WFrecv (st : Manager) : Prop :=
  (st.mReceivers.map Prod.fst).Nodup ∧
  ∀ p ∈ st.mReceivers, (p.2.map ReceiverInfo.receiver).Nodup

theorem mem_keys_updateReceivers {rs : List (Int × List ReceiverInfo)} {t : Int}
    {f : List ReceiverInfo → List ReceiverInfo} {x : Int}
    (hx : x ∈ (updateReceivers rs t f).map Prod.fst) : x ∈ rs.map Prod.fst ∨ x = t := by
  induction rs with
  | nil => simpa [updateReceivers] using hx
  | cons q rest ih =>
      by_cases h : q.1 = t
      · simp only [updateReceivers, if_pos h, List.map_cons] at hx
        rcases List.mem_cons.1 hx with rfl | hx
        · exact Or.inl (by simp)
        · exact Or.inl (by simp [hx])
      · simp only [updateReceivers, if_neg h, List.map_cons] at hx
        rcases List.mem_cons.1 hx with rfl | hx
        · exact Or.inl (by simp)
        · rcases ih hx with h1 | h1
          · exact Or.inl (by simp [h1])
          · exact Or.inr h1

theorem keys_nodup_updateReceivers {rs : List (Int × List ReceiverInfo)} {t : Int}
    {f : List ReceiverInfo → List ReceiverInfo}
    (h : (rs.map Prod.fst).Nodup) : ((updateReceivers rs t f).map Prod.fst).Nodup := by
  induction rs with
  | nil => simp [updateReceivers]
  | cons q rest ih =>
      simp only [List.map_cons, List.nodup_cons] at h
      by_cases hq : q.1 = t
      · simp only [updateReceivers, if_pos hq, List.map_cons, List.nodup_cons]
        exact ⟨h.1, h.2⟩
      · simp only [updateReceivers, if_neg hq, List.map_cons, List.nodup_cons]
        refine ⟨fun hm => ?_, ih h.2⟩
        rcases mem_keys_updateReceivers hm with h1 | h1
        · exact h.1 h1
        · exact hq h1

theorem mem_updateReceivers {rs : List (Int × List ReceiverInfo)} {t : Int}
    {f : List ReceiverInfo → List ReceiverInfo} {p : Int × List ReceiverInfo}
    (hp : p ∈ updateReceivers rs t f) : p ∈ rs ∨ p = (t, f (findReceivers rs t)) := by
  induction rs with
  | nil => simpa [updateReceivers, findReceivers] using hp
  | cons q rest ih =>
      by_cases h : q.1 = t
      · simp only [updateReceivers, if_pos h] at hp
        rcases List.mem_cons.1 hp with rfl | hp
        · exact Or.inr (by simp [findReceivers, h])
        · exact Or.inl (List.mem_cons_of_mem _ hp)
      · simp only [updateReceivers, if_neg h] at hp
        rcases List.mem_cons.1 hp with rfl | hp
        · exact Or.inl (List.mem_cons_self _ _)
        · rcases ih hp with h1 | h1
          · exact Or.inl (List.mem_cons_of_mem _ h1)
          · refine Or.inr ?_
            rw [h1]
            simp [findReceivers, h]

theorem findReceivers_cases (rs : List (Int × List ReceiverInfo)) (t : Int) :
    findReceivers rs t = [] ∨ ∃ p ∈ rs, p.1 = t ∧ p.2 = findReceivers rs t := by
  induction rs with
  | nil => exact Or.inl rfl
  | cons q rest ih =>
      by_cases h : q.1 = t
      · exact Or.inr ⟨q, List.mem_cons_self _ _, h, by simp [findReceivers, h]⟩
      · rcases ih with h1 | ⟨p, hp, hp1, hp2⟩
        · exact Or.inl (by simp [findReceivers, h, h1])
        · exact Or.inr ⟨p, List.mem_cons_of_mem _ hp, hp1, by simp [findReceivers, h, hp2]⟩

theorem eraseFirstReceiver_sublist (rs : List ReceiverInfo) (r : Nat) :
    (eraseFirstReceiver rs r).Sublist rs := by
  induction rs with
  | nil => simp [eraseFirstReceiver]
  | cons q rest ih =>
      by_cases h : q.receiver = r
      · simp only [eraseFirstReceiver, if_pos h]
        exact List.sublist_cons_self _ _
      · simp only [eraseFirstReceiver, if_neg h]
        exact ih.cons₂ q

theorem keys_unregisterIn (rs : List (Int × List ReceiverInfo)) (t : Int) (r : Nat) :
    (unregisterIn rs t r).map Prod.fst = rs.map Prod.fst := by
  induction rs with
  | nil => rfl
  | cons q rest ih =>
      by_cases h : q.1 = t
      · simp [unregisterIn, h]
      · simp [unregisterIn, h, ih]

theorem mem_unregisterIn {rs : List (Int × List ReceiverInfo)} {t : Int} {r : Nat}
    {p : Int × List ReceiverInfo} (hp : p ∈ unregisterIn rs t r) :
    ∃ q ∈ rs, p.1 = q.1 ∧ (p.2 = q.2 ∨ p.2 = eraseFirstReceiver q.2 r) := by
  induction rs with
  | nil => cases hp
  | cons q rest ih =>
      by_cases h : q.1 = t
      · simp only [unregisterIn, if_pos h] at hp
        rcases List.mem_cons.1 hp with rfl | hp
        · exact ⟨q, List.mem_cons_self _ _, rfl, Or.inr rfl⟩
        · exact ⟨p, List.mem_cons_of_mem _ hp, rfl, Or.inl rfl⟩
      · simp only [unregisterIn, if_neg h] at hp
        rcases List.mem_cons.1 hp with rfl | hp
        · exact ⟨p, List.mem_cons_self _ _, rfl, Or.inl rfl⟩
        · obtain ⟨q', hq', h1, h2⟩ := ih hp
          exact ⟨q', List.mem_cons_of_mem _ hq', h1, h2⟩

theorem WFrecv_register (st : Manager) (t : Int) (r : Nat) (n i : Int)
    (h : WFrecv st) : WFrecv (RegisterReceiver st t r n i) := by
  obtain ⟨hkeys, hvals⟩ := h
  by_cases hc : containsReceiver (findReceivers st.mReceivers t) r
  · simp only [RegisterReceiver, hc, if_true]
    refine ⟨keys_nodup_updateReceivers hkeys, fun p hp => ?_⟩
    rcases mem_updateReceivers hp with h1 | h1
    · exact hvals p h1
    · rw [h1]
      rcases findReceivers_cases st.mReceivers t with h2 | ⟨q, hq, _, hq2⟩
      · simp [h2]
      · simpa [← hq2] using hvals q hq
  · have hc' : containsReceiver (findReceivers st.mReceivers t) r = false := by
      simpa using hc
    have hnotin : ∀ x ∈ findReceivers st.mReceivers t, x.receiver ≠ r := by
      intro x hx
      have := List.any_eq_false.1 hc' x hx
      simpa using this
    simp only [RegisterReceiver, hc', Bool.false_eq_true, if_false]
    have hmain : WFrecv { st with
        mReceivers := updateReceivers st.mReceivers t fun l =>
          l ++ [{ receiver := r, intervalNs := roundedIntervalNs i, nextPullTimeNs := n }] } := by
      refine ⟨keys_nodup_updateReceivers hkeys, fun p hp => ?_⟩
      rcases mem_updateReceivers hp with h1 | h1
      · exact hvals p h1
      · rw [h1]
        have hfind : ((findReceivers st.mReceivers t).map ReceiverInfo.receiver).Nodup := by
          rcases findReceivers_cases st.mReceivers t with h2 | ⟨q, hq, _, hq2⟩
          · simp [h2]
          · simpa [← hq2] using hvals q hq
        simp only [List.map_append, List.map_cons, List.map_nil]
        rw [List.nodup_append]
        refine ⟨hfind, List.nodup_singleton r, ?_⟩
        intro x hx
        simp only [List.mem_singleton]
        obtain ⟨y, hy, rfl⟩ := List.mem_map.1 hx
        intro hxr
        exact hnotin y hy hxr
    by_cases hlt : n < st.mNextPullTimeNs
    · rw [if_pos hlt]; exact hmain
    · rw [if_neg hlt]; exact hmain

theorem WFrecv_unregister (st : Manager) (t : Int) (r : Nat)
    (h : WFrecv st) : WFrecv (UnRegisterReceiver st t r) := by
  obtain ⟨hkeys, hvals⟩ := h
  constructor
  · show ((unregisterIn st.mReceivers t r).map Prod.fst).Nodup
    rw [keys_unregisterIn]
    exact hkeys
  · intro p hp
    obtain ⟨q, hq, _, h2⟩ := mem_unregisterIn hp
    rcases h2 with h2 | h2
    · rw [h2]; exact hvals q hq
    · rw [h2]
      exact List.Nodup.sublist ((eraseFirstReceiver_sublist q.2 r).map _) (hvals q hq)

theorem WFrecv_alarm (st : Manager) (e w a : Int) (alive : Nat → Bool)
    (h : WFrecv st) : WFrecv (OnAlarmFired st e w a alive).1 := by
  obtain ⟨hkeys, hvals⟩ := h
  constructor
  · show ((st.mReceivers.map fun p => (p.1, p.2.map (stepReceiver e alive))).map Prod.fst).Nodup
    rw [List.map_map]
    have : (Prod.fst ∘ fun p : Int × List ReceiverInfo => (p.1, p.2.map (stepReceiver e alive)))
        = Prod.fst := by
      funext p; rfl
    rw [this]
    exact hkeys
  · intro p hp
    obtain ⟨q, hq, rfl⟩ := List.mem_map.1 hp
    show (((q.2.map (stepReceiver e alive)).map ReceiverInfo.receiver)).Nodup
    rw [List.map_map]
    have : (ReceiverInfo.receiver ∘ stepReceiver e alive) = ReceiverInfo.receiver := by
      funext x; exact stepReceiver_receiver e alive x
    rw [this]
    exact hvals q hq

theorem updateReceivers_id_of_contains {rs : List (Int × List ReceiverInfo)} {t : Int} {r : Nat}
    (h : containsReceiver (findReceivers rs t) r = true) : updateReceivers rs t id = rs := by
  induction rs with
  | nil => simp [findReceivers, containsReceiver] at h
  | cons q rest ih =>
      by_cases hq : q.1 = t
      · subst hq
        simp [updateReceivers]
      · simp only [findReceivers, if_neg hq] at h
        simp [updateReceivers, hq, ih h]

/-- C5: re-registering an existing (key, handle) pair is a strict no-op, and
the at-most-one-record-per-(key, handle) invariant is preserved by every
scheduling operation. -/
theorem c5_idempotent_registration :
    (∀ (st : Manager) (t : Int) (r : Nat) (n i : Int),
       containsReceiver (findReceivers st.mReceivers t) r = true →
       RegisterReceiver st t r n i = st) ∧
    (∀ (st : Manager) (op : Op), WFrecv st → WFrecv (applyOp st op)) := by
  constructor
  · intro st t r n i h
    simp only [RegisterReceiver, h, if_true, updateReceivers_id_of_contains h]
  · intro st op h
    cases op with
    | register t r n i => exact WFrecv_register st t r n i h
    | unregister t r => exact WFrecv_unregister st t r h
    | alarmFired e w a alive => exact WFrecv_alarm st e w a alive h

/-- A registry with a single subscriber (tag 1, handle 0), for witnesses. -/
def mgrOneRecv : Manager :=
  { kAllPullAtomInfo := []
    mReceivers := [(1, [{ receiver := 0, intervalNs := 60000000000, nextPullTimeNs := 100 }])]
    mNextPullTimeNs := 100 }

/-- Witness for C5: re-registering (1, 0) is the identity, and unregistering
preserves the invariant. -/
theorem c5_idempotent_registration_witness :
    RegisterReceiver mgrOneRecv 1 0 50 70 = mgrOneRecv ∧
    WFrecv (applyOp mgrOneRecv (Op.unregister 1 0)) :=
  ⟨c5_idempotent_registration.1 mgrOneRecv 1 0 50 70 (by decide),
   c5_idempotent_registration.2 mgrOneRecv (Op.unregister 1 0)
     ⟨by decide, by decide⟩⟩

end StatsdSched

/-! ## Effect-log characterisation -/

namespace StatsdSched

/-- The effect log accumulated over a `needToPull` list. -/
def foldEffects (st : Manager) (e w a : Int) (alive : Nat → Bool)
    (ntp : List (Int × List ReceiverInfo)) : AlarmEffects :=
  ntp.foldr (fun p acc => appendEffects (entryEffects st e w a alive p.1 p.2) acc) emptyEffects

theorem OnAlarmFired_effects (st : Manager) (e w a : Int) (alive : Nat → Bool) :
    (OnAlarmFired st e w a alive).2
      = foldEffects st e w a alive (needToPull e st.mReceivers) := rfl

theorem foldEffects_pullLockedTags (st : Manager) (e w a : Int) (alive : Nat → Bool)
    (ntp : List (Int × List ReceiverInfo)) :
    (foldEffects st e w a alive ntp).pullLockedTags = ntp.map Prod.fst := by
  induction ntp with
  | nil => rfl
  | cons p rest ih =>
      show p.1 :: (foldEffects st e w a alive rest).pullLockedTags = p.1 :: rest.map Prod.fst
      rw [ih]

theorem foldEffects_pulledTags_sublist (st : Manager) (e w a : Int) (alive : Nat → Bool)
    (ntp : List (Int × List ReceiverInfo)) :
    (foldEffects st e w a alive ntp).pulledTags.Sublist (ntp.map Prod.fst) := by
  induction ntp with
  | nil => simp [foldEffects, emptyEffects]
  | cons p rest ih =>
      simp only [foldEffects, List.foldr_cons, appendEffects, List.map_cons] at *
      show ((entryEffects st e w a alive p.1 p.2).pulledTags ++ _).Sublist _
      unfold entryEffects PullLocked
      cases lookupAtomInfo st.kAllPullAtomInfo p.1 with
      | none => exact ih.trans (List.sublist_cons_self _ _)
      | some info => exact ih.cons₂ p.1

theorem mem_foldEffects_deliveries {st : Manager} {e w a : Int} {alive : Nat → Bool}
    {ntp : List (Int × List ReceiverInfo)} {d : Delivery} :
    d ∈ (foldEffects st e w a alive ntp).deliveries ↔
      ∃ p ∈ ntp, d ∈ (entryEffects st e w a alive p.1 p.2).deliveries := by
  induction ntp with
  | nil => simp [foldEffects, emptyEffects]
  | cons p rest ih =>
      simp only [foldEffects, List.foldr_cons, appendEffects, List.mem_append] at *
      constructor
      · rintro (h | h)
        · exact ⟨p, List.mem_cons_self _ _, h⟩
        · obtain ⟨q, hq, hd⟩ := ih.1 h
          exact ⟨q, List.mem_cons_of_mem _ hq, hd⟩
      · rintro ⟨q, hq, hd⟩
        rcases List.mem_cons.1 hq with rfl | hq
        · exact Or.inl hd
        · exact Or.inr (ih.2 ⟨q, hq, hd⟩)

theorem mem_foldEffects_delayNotes {st : Manager} {e w a : Int} {alive : Nat → Bool}
    {ntp : List (Int × List ReceiverInfo)} {x : Int × Int} :
    x ∈ (foldEffects st e w a alive ntp).pullDelayNotes ↔
      ∃ p ∈ ntp, x ∈ (entryEffects st e w a alive p.1 p.2).pullDelayNotes := by
  induction ntp with
  | nil => simp [foldEffects, emptyEffects]
  | cons p rest ih =>
      simp only [foldEffects, List.foldr_cons, appendEffects, List.mem_append] at *
      constructor
      · rintro (h | h)
        · exact ⟨p, List.mem_cons_self _ _, h⟩
        · obtain ⟨q, hq, hd⟩ := ih.1 h
          exact ⟨q, List.mem_cons_of_mem _ hq, hd⟩
      · rintro ⟨q, hq, hd⟩
        rcases List.mem_cons.1 hq with rfl | hq
        · exact Or.inl hd
        · exact Or.inr (ih.2 ⟨q, hq, hd⟩)

theorem mem_needToPull {e : Int} {rs : List (Int × List ReceiverInfo)}
    {p : Int × List ReceiverInfo} :
    p ∈ needToPull e rs ↔
      ∃ q ∈ rs, q.2.filter (isDue e) ≠ [] ∧ p = (q.1, q.2.filter (isDue e)) := by
  unfold needToPull
  rw [List.mem_filterMap]
  constructor
  · rintro ⟨q, hq, hf⟩
    by_cases h : (q.2.filter (isDue e)).isEmpty
    · simp [h] at hf
    · simp only [h, Bool.false_eq_true, if_false, Option.some.injEq] at hf
      exact ⟨q, hq, by simpa [List.isEmpty_iff] using h, hf.symm⟩
  · rintro ⟨q, hq, hne, rfl⟩
    refine ⟨q, hq, ?_⟩
    have h : (q.2.filter (isDue e)).isEmpty = false := by simpa [List.isEmpty_iff] using hne
    simp [h]

theorem needToPull_keys_sublist (e : Int) (rs : List (Int × List ReceiverInfo)) :
    ((needToPull e rs).map Prod.fst).Sublist (rs.map Prod.fst) := by
  induction rs with
  | nil => simp [needToPull]
  | cons q rest ih =>
      simp only [needToPull, List.filterMap_cons] at *
      by_cases h : (q.2.filter (isDue e)).isEmpty
      · simp only [h, if_true]
        exact ih.trans (List.sublist_cons_self _ _)
      · simp only [h, Bool.false_eq_true, if_false, List.map_cons]
        exact ih.cons₂ q.1

theorem mem_entryEffects_deliveries {st : Manager} {e w a : Int} {alive : Nat → Bool}
    {t : Int} {due : List ReceiverInfo} {d : Delivery} :
    d ∈ (entryEffects st e w a alive t due).deliveries ↔
      ∃ r ∈ due, alive r.receiver = true ∧
        d = { tagId := t, receiver := r.receiver,
              data := (PullLocked st t).data.map (stampEvent e w),
              pullSuccess := (PullLocked st t).ret, elapsedTimeNs := e } := by
  unfold entryEffects
  simp only [List.mem_map, List.mem_filter]
  constructor
  · rintro ⟨r, ⟨hr, hal⟩, rfl⟩
    exact ⟨r, hr, hal, rfl⟩
  · rintro ⟨r, hr, hal, rfl⟩
    exact ⟨r, ⟨hr, hal⟩, rfl⟩

theorem foldEffects_deliveries_alive {st : Manager} {e w a : Int} {alive : Nat → Bool}
    {ntp : List (Int × List ReceiverInfo)} {d : Delivery}
    (hd : d ∈ (foldEffects st e w a alive ntp).deliveries) : alive d.receiver = true := by
  obtain ⟨p, _, hd⟩ := mem_foldEffects_deliveries.1 hd
  obtain ⟨r, _, hal, rfl⟩ := mem_entryEffects_deliveries.1 hd
  exact hal

/-- Every due subscriber with a resolvable handle gets a delivery for its key. -/
theorem delivery_exists {st : Manager} {e w a : Int} {alive : Nat → Bool}
    {p : Int × List ReceiverInfo} {r : ReceiverInfo}
    (hp : p ∈ st.mReceivers) (hr : r ∈ p.2) (hdue : isDue e r = true)
    (hal : alive r.receiver = true) :
    ∃ d ∈ (OnAlarmFired st e w a alive).2.deliveries,
      d.tagId = p.1 ∧ d.receiver = r.receiver := by
  rw [OnAlarmFired_effects]
  have hrf : r ∈ p.2.filter (isDue e) := List.mem_filter.2 ⟨hr, hdue⟩
  have hne : p.2.filter (isDue e) ≠ [] := List.ne_nil_of_mem hrf
  have hntp : (p.1, p.2.filter (isDue e)) ∈ needToPull e st.mReceivers :=
    mem_needToPull.2 ⟨p, hp, hne, rfl⟩
  refine ⟨{ tagId := p.1, receiver := r.receiver,
            data := (PullLocked st p.1).data.map (stampEvent e w),
            pullSuccess := (PullLocked st p.1).ret, elapsedTimeNs := e },
    mem_foldEffects_deliveries.2 ⟨(p.1, p.2.filter (isDue e)), hntp,
      mem_entryEffects_deliveries.2 ⟨r, hrf, hal, rfl⟩⟩, rfl, rfl⟩

end StatsdSched

/-! ## C3 and C9 -/

namespace StatsdSched

/-- C3: within one `OnAlarmFired`, `PullLocked` runs at most once per key and
each puller capability runs at most once per key; every delivery carries the
single stamped pull result of its key (so two due subscribers of the same key
receive identical data, success flag, and record timestamps), and every due
subscriber whose handle resolves receives a delivery for its key. -/
theorem c3_single_pull_per_cycle (st : Manager) (e w a : Int) (alive : Nat → Bool)
    (hkeys : (st.mReceivers.map Prod.fst).Nodup) :
    (OnAlarmFired st e w a alive).2.pullLockedTags.Nodup ∧
    (OnAlarmFired st e w a alive).2.pulledTags.Nodup ∧
    (∀ d ∈ (OnAlarmFired st e w a alive).2.deliveries,
       d.pullSuccess = (PullLocked st d.tagId).ret ∧
       d.data = (PullLocked st d.tagId).data.map (stampEvent e w) ∧
       d.elapsedTimeNs = e ∧
       ∀ ev ∈ d.data, ev.elapsedTimestampNs = e ∧ ev.logdWallClockTimestampNs = w) ∧
    (∀ d₁ ∈ (OnAlarmFired st e w a alive).2.deliveries,
     ∀ d₂ ∈ (OnAlarmFired st e w a alive).2.deliveries, d₁.tagId = d₂.tagId →
       d₁.data = d₂.data ∧ d₁.pullSuccess = d₂.pullSuccess) ∧
    (∀ p ∈ st.mReceivers, ∀ r ∈ p.2, isDue e r = true → alive r.receiver = true →
       ∃ d ∈ (OnAlarmFired st e w a alive).2.deliveries,
         d.tagId = p.1 ∧ d.receiver = r.receiver) := by
  have hsub := needToPull_keys_sublist e st.mReceivers
  have hntpnd : ((needToPull e st.mReceivers).map Prod.fst).Nodup :=
    List.Nodup.sublist hsub hkeys
  have hmem : ∀ d ∈ (OnAlarmFired st e w a alive).2.deliveries,
      d.pullSuccess = (PullLocked st d.tagId).ret ∧
      d.data = (PullLocked st d.tagId).data.map (stampEvent e w) ∧
      d.elapsedTimeNs = e ∧
      ∀ ev ∈ d.data, ev.elapsedTimestampNs = e ∧ ev.logdWallClockTimestampNs = w := by
    intro d hd
    rw [OnAlarmFired_effects] at hd
    obtain ⟨p, _, hd⟩ := mem_foldEffects_deliveries.1 hd
    obtain ⟨r, _, _, rfl⟩ := mem_entryEffects_deliveries.1 hd
    refine ⟨rfl, rfl, rfl, ?_⟩
    intro ev hev
    obtain ⟨ev0, _, rfl⟩ := List.mem_map.1 hev
    exact ⟨rfl, rfl⟩
  refine ⟨?_, ?_, hmem, ?_, ?_⟩
  · rw [OnAlarmFired_effects, foldEffects_pullLockedTags]
    exact hntpnd
  · rw [OnAlarmFired_effects]
    exact List.Nodup.sublist (foldEffects_pulledTags_sublist st e w a alive _) hntpnd
  · intro d₁ hd₁ d₂ hd₂ htag
    obtain ⟨hs₁, hdata₁, -, -⟩ := hmem d₁ hd₁
    obtain ⟨hs₂, hdata₂, -, -⟩ := hmem d₂ hd₂
    rw [hdata₁, hdata₂, htag, hs₁, hs₂, htag]
    exact ⟨rfl, rfl⟩
  · intro p hp r hr hdue hal
    exact delivery_exists hp hr hdue hal

/-- A registry with one due subscriber (alive) and one due subscriber whose
handle cannot be resolved, both on the same key, plus a working puller. -/
def mgrTwoRecv : Manager :=
  { kAllPullAtomInfo := [(1, { puller := { pullSuccess := true, pullData := [⟨9, 0, 0⟩] } })]
    mReceivers := [(1, [{ receiver := 0, intervalNs := 60000000000, nextPullTimeNs := 100 },
                        { receiver := 1, intervalNs := 60000000000, nextPullTimeNs := 100 }])]
    mNextPullTimeNs := 100 }

/-- Witness for C3 on `mgrTwoRecv` at firing time 100. -/
theorem c3_single_pull_per_cycle_witness :
    (OnAlarmFired mgrTwoRecv 100 7 120 (fun _ => true)).2.pullLockedTags.Nodup ∧
    (OnAlarmFired mgrTwoRecv 100 7 120 (fun _ => true)).2.pulledTags.Nodup ∧
    (∀ d ∈ (OnAlarmFired mgrTwoRecv 100 7 120 (fun _ => true)).2.deliveries,
       d.pullSuccess = (PullLocked mgrTwoRecv d.tagId).ret ∧
       d.data = (PullLocked mgrTwoRecv d.tagId).data.map (stampEvent 100 7) ∧
       d.elapsedTimeNs = 100 ∧
       ∀ ev ∈ d.data, ev.elapsedTimestampNs = 100 ∧ ev.logdWallClockTimestampNs = 7) ∧
    (∀ d₁ ∈ (OnAlarmFired mgrTwoRecv 100 7 120 (fun _ => true)).2.deliveries,
     ∀ d₂ ∈ (OnAlarmFired mgrTwoRecv 100 7 120 (fun _ => true)).2.deliveries,
       d₁.tagId = d₂.tagId → d₁.data = d₂.data ∧ d₁.pullSuccess = d₂.pullSuccess) ∧
    (∀ p ∈ mgrTwoRecv.mReceivers, ∀ r ∈ p.2, isDue 100 r = true → true = true →
       ∃ d ∈ (OnAlarmFired mgrTwoRecv 100 7 120 (fun _ => true)).2.deliveries,
         d.tagId = p.1 ∧ d.receiver = r.receiver) :=
  c3_single_pull_per_cycle mgrTwoRecv 100 7 120 (fun _ => true) (by decide)

theorem eraseFirstReceiver_not_mem {rs : List ReceiverInfo} {rid : Nat}
    (h : (rs.map ReceiverInfo.receiver).Nodup) :
    rid ∉ (eraseFirstReceiver rs rid).map ReceiverInfo.receiver := by
  induction rs with
  | nil => simp [eraseFirstReceiver]
  | cons q rest ih =>
      simp only [List.map_cons, List.nodup_cons] at h
      by_cases hq : q.receiver = rid
      · simp only [eraseFirstReceiver, if_pos hq]
        rw [← hq]
        exact h.1
      · simp only [eraseFirstReceiver, if_neg hq, List.map_cons, List.mem_cons]
        rintro (h1 | h1)
        · exact hq h1.symm
        · exact ih h.2 h1

theorem unregisterIn_removes {rs : List (Int × List ReceiverInfo)} {t : Int} {rid : Nat}
    (hkeys : (rs.map Prod.fst).Nodup) (hvals : ∀ p ∈ rs, (p.2.map ReceiverInfo.receiver).Nodup) :
    ∀ q ∈ unregisterIn rs t rid, q.1 = t → rid ∉ q.2.map ReceiverInfo.receiver := by
  induction rs with
  | nil => intro q hq; cases hq
  | cons q0 rest ih =>
      simp only [List.map_cons, List.nodup_cons] at hkeys
      intro q hq hqt
      by_cases h : q0.1 = t
      · simp only [unregisterIn, if_pos h] at hq
        rcases List.mem_cons.1 hq with rfl | hq
        · exact eraseFirstReceiver_not_mem (hvals q0 (List.mem_cons_self _ _))
        · exfalso
          apply hkeys.1
          rw [h, ← hqt]
          exact List.mem_map_of_mem Prod.fst hq
      · simp only [unregisterIn, if_neg h] at hq
        rcases List.mem_cons.1 hq with rfl | hq
        · exact absurd hqt h
        · exact ih hkeys.2 (fun p hp => hvals p (List.mem_cons_of_mem _ hp)) q hq hqt

/-- C9: a due subscriber whose handle does not resolve is skipped silently —
no delivery goes to its handle, its record survives the firing unchanged,
every other due-and-resolvable subscriber is still served — and the record is
removed by an explicit `UnRegisterReceiver` for its (key, handle) pair. -/
theorem c9_unreachable_skip (st : Manager) (e w a : Int) (alive : Nat → Bool)
    (p : Int × List ReceiverInfo) (r : ReceiverInfo)
    (hWF : WFrecv st) (hp : p ∈ st.mReceivers) (hr : r ∈ p.2)
    (hdead : alive r.receiver = false) (hdue : isDue e r = true) :
    (∀ d ∈ (OnAlarmFired st e w a alive).2.deliveries, d.receiver ≠ r.receiver) ∧
    (∃ q ∈ (OnAlarmFired st e w a alive).1.mReceivers, q.1 = p.1 ∧ r ∈ q.2) ∧
    (∀ p' ∈ st.mReceivers, ∀ r' ∈ p'.2, isDue e r' = true → alive r'.receiver = true →
       ∃ d ∈ (OnAlarmFired st e w a alive).2.deliveries,
         d.tagId = p'.1 ∧ d.receiver = r'.receiver) ∧
    (∀ q ∈ (UnRegisterReceiver (OnAlarmFired st e w a alive).1 p.1 r.receiver).mReceivers,
       q.1 = p.1 → r.receiver ∉ q.2.map ReceiverInfo.receiver) := by
  refine ⟨?_, ?_, ?_, ?_⟩
  · intro d hd heq
    rw [OnAlarmFired_effects] at hd
    have := foldEffects_deliveries_alive hd
    rw [heq, hdead] at this
    cases this
  · refine ⟨(p.1, p.2.map (stepReceiver e alive)), ?_, rfl, ?_⟩
    · show _ ∈ st.mReceivers.map fun q => (q.1, q.2.map (stepReceiver e alive))
      exact List.mem_map_of_mem _ hp
    · have hstep : stepReceiver e alive r = r := by
        unfold stepReceiver
        rw [hdue, if_pos rfl, hdead]
        simp
      rw [← hstep]
      exact List.mem_map_of_mem _ hr
  · intro p' hp' r' hr' hdue' hal'
    exact delivery_exists hp' hr' hdue' hal'
  · have hWF' := WFrecv_alarm st e w a alive hWF
    intro q hq hqt
    exact unregisterIn_removes hWF'.1 hWF'.2 q hq hqt

/-- Witness for C9 on `mgrTwoRecv`, with handle 1 unresolvable. -/
theorem c9_unreachable_skip_witness :
    (∀ d ∈ (OnAlarmFired mgrTwoRecv 100 7 120 (fun n => n == 0)).2.deliveries,
       d.receiver ≠ 1) ∧
    (∃ q ∈ (OnAlarmFired mgrTwoRecv 100 7 120 (fun n => n == 0)).1.mReceivers,
       q.1 = 1 ∧
       ({ receiver := 1, intervalNs := 60000000000, nextPullTimeNs := 100 } : ReceiverInfo)
         ∈ q.2) ∧
    (∀ p' ∈ mgrTwoRecv.mReceivers, ∀ r' ∈ p'.2, isDue 100 r' = true →
       (fun n => n == 0) r'.receiver = true →
       ∃ d ∈ (OnAlarmFired mgrTwoRecv 100 7 120 (fun n => n == 0)).2.deliveries,
         d.tagId = p'.1 ∧ d.receiver = r'.receiver) ∧
    (∀ q ∈ (UnRegisterReceiver (OnAlarmFired mgrTwoRecv 100 7 120 (fun n => n == 0)).1
              1 1).mReceivers,
       q.1 = 1 → 1 ∉ q.2.map ReceiverInfo.receiver) :=
  c9_unreachable_skip mgrTwoRecv 100 7 120 (fun n => n == 0)
    (1, [{ receiver := 0, intervalNs := 60000000000, nextPullTimeNs := 100 },
         { receiver := 1, intervalNs := 60000000000, nextPullTimeNs := 100 }])
    { receiver := 1, intervalNs := 60000000000, nextPullTimeNs := 100 }
    ⟨by decide, by decide⟩ (by decide) (by decide) (by decide) (by decide)

end StatsdSched

/-! ## C7, C8, C10 -/

namespace StatsdSched

/-- C7, amended: a pull-delay note `(key, actualNow - firedAt)` is reported
exactly for those keys that have at least one due subscriber AND whose pull
succeeds — a failed pull reports no delay. -/
theorem c7_pull_delay_amended (st : Manager) (e w a : Int) (alive : Nat → Bool) (t v : Int) :
    (t, v) ∈ (OnAlarmFired st e w a alive).2.pullDelayNotes ↔
      (∃ p ∈ st.mReceivers, p.1 = t ∧ ∃ r ∈ p.2, isDue e r = true) ∧
      (PullLocked st t).ret = true ∧ v = a - e := by
  rw [OnAlarmFired_effects, mem_foldEffects_delayNotes]
  constructor
  · rintro ⟨p, hp, hx⟩
    obtain ⟨q, hq, hne, rfl⟩ := mem_needToPull.1 hp
    unfold entryEffects at hx
    by_cases hret : (PullLocked st q.1).ret
    · simp only [hret, if_true, List.mem_singleton, Prod.mk.injEq] at hx
      obtain ⟨rfl, rfl⟩ := hx
      obtain ⟨r, hrf⟩ := List.exists_mem_of_ne_nil _ hne
      obtain ⟨hr, hrd⟩ := List.mem_filter.1 hrf
      exact ⟨⟨q, hq, rfl, r, hr, hrd⟩, hret, rfl⟩
    · simp only [hret, Bool.false_eq_true, if_false, List.not_mem_nil] at hx
  · rintro ⟨⟨p, hp, rfl, r, hr, hdue⟩, hret, rfl⟩
    have hrf : r ∈ p.2.filter (isDue e) := List.mem_filter.2 ⟨hr, hdue⟩
    have hne : p.2.filter (isDue e) ≠ [] := List.ne_nil_of_mem hrf
    refine ⟨(p.1, p.2.filter (isDue e)), mem_needToPull.2 ⟨p, hp, hne, rfl⟩, ?_⟩
    unfold entryEffects
    simp [hret]

/-- A registry with one due subscriber on key 1 whose pull fails. -/
def mgrFailingDue : Manager :=
  { kAllPullAtomInfo := [(1, { puller := { pullSuccess := false, pullData := [] } })]
    mReceivers := [(1, [{ receiver := 0, intervalNs := 60000000000, nextPullTimeNs := 100 }])]
    mNextPullTimeNs := 100 }

/-- C7 counterexample: key 1 has a due subscriber at the firing, but because
its pull fails, no pull-delay note is reported at all — contradicting
"the delay report happens for every pulled source, whether or not the pull
succeeded". -/
theorem c7_pull_delay_cex :
    (∃ p ∈ mgrFailingDue.mReceivers, p.1 = 1 ∧ ∃ r ∈ p.2, isDue 100 r = true) ∧
    (OnAlarmFired mgrFailingDue 100 7 120 (fun _ => true)).2.pullDelayNotes = [] := by
  exact ⟨by decide, by decide⟩

/-- A registry with one due subscriber on key 1 whose pull succeeds. -/
def mgrWorkingDue : Manager :=
  { kAllPullAtomInfo := [(1, { puller := { pullSuccess := true, pullData := [] } })]
    mReceivers := [(1, [{ receiver := 0, intervalNs := 60000000000, nextPullTimeNs := 100 }])]
    mNextPullTimeNs := 100 }

/-- Witness for the amended C7: the succeeding pull reports delay 20. -/
theorem c7_pull_delay_amended_witness :
    (1, 20) ∈ (OnAlarmFired mgrWorkingDue 100 7 120 (fun _ => true)).2.pullDelayNotes :=
  (c7_pull_delay_amended mgrWorkingDue 100 7 120 (fun _ => true) 1 20).2
    ⟨⟨(1, [{ receiver := 0, intervalNs := 60000000000, nextPullTimeNs := 100 }]),
      by decide, rfl,
      { receiver := 0, intervalNs := 60000000000, nextPullTimeNs := 100 }, by decide, by decide⟩,
     by decide, by decide⟩

theorem lookupAtomInfo_eq_none_of_not_mem {m : List (Int × PullAtomInfo)} {t : Int}
    (h : t ∉ m.map Prod.fst) : lookupAtomInfo m t = none := by
  induction m with
  | nil => rfl
  | cons q rest ih =>
      simp only [List.map_cons, List.mem_cons] at h
      push_neg at h
      simp only [lookupAtomInfo]
      rw [if_neg (fun hq => h.1 hq.symm)]
      exact ih h.2

theorem lookupAtomInfo_eraseAtomInfo {m : List (Int × PullAtomInfo)} {t : Int}
    (h : (m.map Prod.fst).Nodup) : lookupAtomInfo (eraseAtomInfo m t) t = none := by
  induction m with
  | nil => rfl
  | cons q rest ih =>
      simp only [List.map_cons, List.nodup_cons] at h
      by_cases hq : q.1 = t
      · simp only [eraseAtomInfo, if_pos hq]
        exact lookupAtomInfo_eq_none_of_not_mem (by rw [← hq]; exact h.1)
      · simp only [eraseAtomInfo, if_neg hq, lookupAtomInfo, if_neg hq]
        exact ih h.2

/-- C8, amended: the vendor-gated register path (`RegisterPullerCallback`) and
`UnregisterPullerCallback` reject non-vendor keys with no effect, and
`UnregisterPullerCallback` on a vendor key erases the entry; but
`UnregisterPullAtomCallback` erases unconditionally — it performs no vendor
check, so platform keys are removed too. -/
theorem c8_vendor_gating_amended :
    (∀ (isV : Int → Bool) (st : Manager) (t : Int) (cb : StatsPuller),
       isV t = false → RegisterPullerCallback isV st t cb = (st, {})) ∧
    (∀ (isV : Int → Bool) (st : Manager) (t : Int),
       isV t = false → UnregisterPullerCallback isV st t = (st, {})) ∧
    (∀ (isV : Int → Bool) (st : Manager) (t : Int),
       isV t = true →
       (UnregisterPullerCallback isV st t).1.kAllPullAtomInfo
         = eraseAtomInfo st.kAllPullAtomInfo t) ∧
    (∀ (st : Manager) (uid t : Int),
       (UnregisterPullAtomCallback st uid t).1.kAllPullAtomInfo
         = eraseAtomInfo st.kAllPullAtomInfo t) ∧
    (∀ (m : List (Int × PullAtomInfo)) (t : Int), (m.map Prod.fst).Nodup →
       lookupAtomInfo (eraseAtomInfo m t) t = none) := by
  refine ⟨?_, ?_, ?_, fun st uid t => rfl, fun m t h => lookupAtomInfo_eraseAtomInfo h⟩
  · intro isV st t cb h
    simp [RegisterPullerCallback, h]
  · intro isV st t h
    simp [UnregisterPullerCallback, h]
  · intro isV st t h
    simp [UnregisterPullerCallback, h]

/-- A platform table holding only the platform key 10. -/
def platformTable : List (Int × PullAtomInfo) :=
  [(10, { puller := { pullSuccess := true, pullData := [] } })]

/-- C8 counterexample: key 10 is not vendor-extensible (with the
spec-modelled vendor range starting at 100000), yet `UnregisterPullAtomCallback`
removes its SourceInfo — the claimed "if and only if the key is
vendor-extensible" fails for this path. -/
theorem c8_vendor_gating_cex :
    isVendorPulledAtomSpec 100000 10 = false ∧
    lookupAtomInfo (initialManager platformTable).kAllPullAtomInfo 10 ≠ none ∧
    lookupAtomInfo
      (UnregisterPullAtomCallback (initialManager platformTable) 0 10).1.kAllPullAtomInfo 10
      = none := by
  exact ⟨by decide, by decide, by decide⟩

/-- Witness for the amended C8 at concrete inputs. -/
theorem c8_vendor_gating_amended_witness :
    RegisterPullerCallback (isVendorPulledAtomSpec 100000) (initialManager platformTable) 10
        { pullSuccess := true, pullData := [] } = (initialManager platformTable, {}) ∧
    UnregisterPullerCallback (isVendorPulledAtomSpec 100000) (initialManager platformTable) 10
        = (initialManager platformTable, {}) ∧
    (UnregisterPullerCallback (isVendorPulledAtomSpec 100000) (initialManager platformTable)
        100001).1.kAllPullAtomInfo
      = eraseAtomInfo (initialManager platformTable).kAllPullAtomInfo 100001 ∧
    lookupAtomInfo (eraseAtomInfo platformTable 10) 10 = none :=
  ⟨c8_vendor_gating_amended.1 (isVendorPulledAtomSpec 100000) (initialManager platformTable) 10
     { pullSuccess := true, pullData := [] } (by decide),
   c8_vendor_gating_amended.2.1 (isVendorPulledAtomSpec 100000) (initialManager platformTable) 10
     (by decide),
   c8_vendor_gating_amended.2.2.1 (isVendorPulledAtomSpec 100000) (initialManager platformTable)
     100001 (by decide),
   c8_vendor_gating_amended.2.2.2.2 platformTable 10 (by decide)⟩

/-- C10: a fresh registration stores the `nextPullTimeNs` argument verbatim —
only the interval is minute-floored — and the global deadline becomes the
minimum of its old value and this raw first-due time, which may lie less than
60 s in the future. -/
theorem c10_raw_next_pull_time (st : Manager) (t : Int) (r : Nat) (n i : Int)
    (h : containsReceiver (findReceivers st.mReceivers t) r = false) :
    (∃ p ∈ (RegisterReceiver st t r n i).mReceivers, p.1 = t ∧
       ({ receiver := r, intervalNs := roundedIntervalNs i, nextPullTimeNs := n }
          : ReceiverInfo) ∈ p.2) ∧
    (RegisterReceiver st t r n i).mNextPullTimeNs = min st.mNextPullTimeNs n := by
  refine ⟨?_, (mNext_register_new st t r n i h).1⟩
  simp only [RegisterReceiver, h, Bool.false_eq_true, if_false]
  by_cases hlt : n < st.mNextPullTimeNs
  · rw [if_pos hlt]; exact mem_updateReceivers_append _ _ _
  · rw [if_neg hlt]; exact mem_updateReceivers_append _ _ _

/-- Witness for C10: first due time 30 s — less than a minute away — is stored
and becomes the global deadline verbatim. -/
theorem c10_raw_next_pull_time_witness :
    (∃ p ∈ (RegisterReceiver (initialManager []) 2 0 (30 * NS_PER_SEC)
              (120 * NS_PER_SEC)).mReceivers, p.1 = 2 ∧
       ({ receiver := 0, intervalNs := roundedIntervalNs (120 * NS_PER_SEC),
          nextPullTimeNs := 30 * NS_PER_SEC } : ReceiverInfo) ∈ p.2) ∧
    (RegisterReceiver (initialManager []) 2 0 (30 * NS_PER_SEC)
        (120 * NS_PER_SEC)).mNextPullTimeNs
      = min (initialManager []).mNextPullTimeNs (30 * NS_PER_SEC) :=
  c10_raw_next_pull_time (initialManager []) 2 0 (30 * NS_PER_SEC) (120 * NS_PER_SEC)
    (by decide)

end StatsdSched
